import Mathlib

/-!
# Verification of the recipe-management API core

Shallow embedding of the repository's recipe/tag/ingredient layer:
`recipe/serializers.py`, `recipe/views.py`, `tag/views.py`,
`ingredient/views.py`.  The relational state (the tables declared in
`core/models.py`, which the serializers and views operate on through the
ORM) is modelled as explicit lists of rows; the ORM primitives used by the
source (`get_or_create`, `filter`, `order_by`, `distinct`, M2M `add` /
`clear`, `save`) are modelled by their documented relational semantics.

`Tag` and `Ingredient` rows have the identical shape `{id, user, name}`
and the source's `get_or_create_tags` / `get_or_create_ingredients` are
verbatim twins, so both tables use the row type `NamedRow` and share the
generic core `rowsGetOrCreate`.
-/

/-- A `Tag` or `Ingredient` row: surrogate key, owner reference, name
(fields per the data model in `core/models.py`, mirrored by the spec's
data-model table). -/
structure NamedRow where
  id : Nat
  user : Nat
  name : String
deriving DecidableEq, Repr

/-- A `Recipe` row together with its two M2M association sets (the join
tables are folded into the row as lists of associated tag / ingredient
ids).  `price` is the fixed-point decimal scaled to an integer. -/
structure Recipe where
  id : Nat
  user : Nat
  title : String
  time_minutes : Nat
  price : Int
  link : String
  description : String
  image : Option String
  tags : List Nat
  ingredients : List Nat
deriving DecidableEq, Repr

/-- The database: one list of rows per table, plus the auto-increment
counters for the surrogate keys. -/
structure DB where
  tags : List NamedRow
  nextTagId : Nat
  ingredients : List NamedRow
  nextIngredientId : Nat
  recipes : List Recipe
  nextRecipeId : Nat
deriving DecidableEq, Repr

/-- Number of rows of a table matching `(user, name)` exactly —
the row count the spec's get-or-create contract talks about. -/
def countRows (rows : List NamedRow) (u : Nat) (n : String) : Nat :=
  (rows.filter fun t => t.user == u && t.name == n).length

/-- Django M2M `add`: associates the id if it is not already associated
(idempotent). -/
def addAssoc (assoc : List Nat) (i : Nat) : List Nat :=
  if i ∈ assoc then assoc else assoc ++ [i]

/-- `Model.objects.get_or_create(user=..., name=...)`: look the row up by
exact `(user, name)` match (string comparison is case-sensitive); reuse it
if found, otherwise append a fresh row owned by `u`.  Returns the updated
table, the updated id counter, and the id of the resolved row. -/
def rowGetOrCreate (rows : List NamedRow) (nextId : Nat) (u : Nat) (n : String) :
    List NamedRow × Nat × Nat :=
  match rows.find? (fun t => t.user == u && t.name == n) with
  | some t => (rows, nextId, t.id)
  | none => (rows ++ [⟨nextId, u, n⟩], nextId + 1, nextId)

/-- The loop body shared by `get_or_create_tags` and
`get_or_create_ingredients` (`recipe/serializers.py`): for each payload
entry resolve the row by `(user, name)` and associate it with the recipe
(`recipe.tags.add(tag_obj)`).  State is `(table rows, id counter,
association set of the recipe)`. -/
def rowsGetOrCreate (u : Nat) :
    List String → List NamedRow × Nat × List Nat → List NamedRow × Nat × List Nat
  | [], st => st
  | n :: rest, (rows, nextId, assoc) =>
    let p := rowGetOrCreate rows nextId u n
    rowsGetOrCreate u rest (p.1, p.2.1, addAssoc assoc p.2.2)

/-- `get_or_create_tags(user, tags, recipe)` from `recipe/serializers.py`,
acting on the tag table; the recipe's association set is threaded
explicitly instead of mutating the recipe row in place. -/
def get_or_create_tags (u : Nat) (names : List String) (db : DB) (assoc : List Nat) :
    DB × List Nat :=
  let st := rowsGetOrCreate u names (db.tags, db.nextTagId, assoc)
  ({ db with tags := st.1, nextTagId := st.2.1 }, st.2.2)

/-- `get_or_create_ingredients(user, ingredients, recipe)` from
`recipe/serializers.py`, acting on the ingredient table. -/
def get_or_create_ingredients (u : Nat) (names : List String) (db : DB) (assoc : List Nat) :
    DB × List Nat :=
  let st := rowsGetOrCreate u names (db.ingredients, db.nextIngredientId, assoc)
  ({ db with ingredients := st.1, nextIngredientId := st.2.1 }, st.2.2)

/-- A raw recipe request body before serializer validation.  Every field a
client might send, present (`some`) or absent (`none`); nested tag /
ingredient entries are `{name}` objects, so a list of names. -/
structure RecipeRawPayload where
  title : Option String := none
  time_minutes : Option Nat := none
  price : Option Int := none
  link : Option String := none
  description : Option String := none
  user : Option Nat := none
  tags : Option (List String) := none
  ingredients : Option (List String) := none
deriving DecidableEq, Repr

/-- `validated_data` after a recipe serializer ran: only declared writable
serializer fields survive validation.  No recipe serializer declares a
`user` field, so `user` never appears here. -/
structure RecipeValidated where
  title : Option String := none
  time_minutes : Option Nat := none
  price : Option Int := none
  link : Option String := none
  description : Option String := none
  tags : Option (List String) := none
  ingredients : Option (List String) := none
deriving DecidableEq, Repr

/-- Which serializer class `RecipeViewSet.get_serializer_class` picks. -/
inductive SerializerKind where
  | recipe
  | recipeDetail
  | recipeImage
deriving DecidableEq, Repr

/-- `RecipeViewSet.get_serializer_class` (`recipe/views.py`): plain
`RecipeSerializer` for list/create/update/partial_update, the image
serializer for upload_image, the detail serializer otherwise. -/
def RecipeViewSet.get_serializer_class (action : String) : SerializerKind :=
  if action = "list" ∨ action = "create" ∨ action = "update" ∨ action = "partial_update" then
    SerializerKind.recipe
  else if action = "upload_image" then SerializerKind.recipeImage
  else SerializerKind.recipeDetail

/-- Field filtering done by serializer validation.  `RecipeSerializer.Meta`
declares `['id', 'title', 'time_minutes', 'price', 'link', 'tags',
'ingredients']` (no `description`, no `user`); `RecipeDetailSerializer`
adds `description`; the image serializer declares only `['id', 'image']`.
A payload key with no matching serializer field is dropped. -/
def recipeValidate (k : SerializerKind) (p : RecipeRawPayload) : RecipeValidated :=
  match k with
  | SerializerKind.recipe =>
    { title := p.title, time_minutes := p.time_minutes, price := p.price,
      link := p.link, tags := p.tags, ingredients := p.ingredients }
  | SerializerKind.recipeDetail =>
    { title := p.title, time_minutes := p.time_minutes, price := p.price,
      link := p.link, description := p.description,
      tags := p.tags, ingredients := p.ingredients }
  | SerializerKind.recipeImage => {}

/-- `RecipeSerializer.create` (`recipe/serializers.py`): pop `tags` /
`ingredients` (defaulting to `[]`), create the recipe row owned by the
authenticated user, then resolve-and-associate tags and ingredients via
get-or-create.  Returns the final database and the created recipe. -/
def RecipeSerializer.create (db : DB) (authUser : Nat) (vd : RecipeValidated) :
    DB × Recipe :=
  let r0 : Recipe :=
    { id := db.nextRecipeId, user := authUser, title := vd.title.getD "",
      time_minutes := vd.time_minutes.getD 0, price := vd.price.getD 0,
      link := vd.link.getD "", description := "", image := none,
      tags := [], ingredients := [] }
  let db0 := { db with recipes := db.recipes ++ [r0], nextRecipeId := db.nextRecipeId + 1 }
  let pt := get_or_create_tags authUser (vd.tags.getD []) db0 []
  let pi := get_or_create_ingredients authUser (vd.ingredients.getD []) pt.1 []
  let r : Recipe := { r0 with tags := pt.2, ingredients := pi.2 }
  ({ pi.1 with recipes := pi.1.recipes.map fun x => if x.id == r0.id then r else x }, r)

/-- `RecipeSerializer.update` (`recipe/serializers.py`): pop `tags` /
`ingredients` with default `None`; when a field is present (even as `[]`)
the recipe's associations are cleared (`instance.tags.clear()`, modelled by
restarting the association set from `[]`) and rebuilt by get-or-create;
when absent, associations are untouched.  Remaining validated fields are
applied with `setattr`, and the row is saved. -/
def RecipeSerializer.update (db : DB) (authUser : Nat) (r : Recipe) (vd : RecipeValidated) :
    DB × Recipe :=
  let s1 : DB × Recipe :=
    match vd.tags with
    | none => (db, r)
    | some names =>
      let p := get_or_create_tags authUser names db []
      (p.1, { r with tags := p.2 })
  let s2 : DB × Recipe :=
    match vd.ingredients with
    | none => s1
    | some names =>
      let p := get_or_create_ingredients authUser names s1.1 []
      (p.1, { s1.2 with ingredients := p.2 })
  let r3 : Recipe :=
    { s2.2 with
      title := vd.title.getD s2.2.title,
      time_minutes := vd.time_minutes.getD s2.2.time_minutes,
      price := vd.price.getD s2.2.price,
      link := vd.link.getD s2.2.link,
      description := vd.description.getD s2.2.description }
  ({ s2.1 with recipes := s2.1.recipes.map fun x => if x.id == r.id then r3 else x }, r3)

/-- Descending-by-name order used by `order_by('-name')` on tags and
ingredients. -/
def nameDesc (a b : NamedRow) : Prop := b.name ≤ a.name

instance : DecidableRel nameDesc := fun a b =>
  inferInstanceAs (Decidable (b.name ≤ a.name))

instance : IsTotal NamedRow nameDesc :=
  ⟨fun a b => (le_total b.name a.name).elim Or.inl Or.inr⟩

instance : IsTrans NamedRow nameDesc :=
  ⟨fun _ _ _ hab hbc => le_trans hbc hab⟩

/-- Descending-by-id order used by `order_by('-id')` on recipes. -/
def recipeIdDesc (a b : Recipe) : Prop := b.id ≤ a.id

instance : DecidableRel recipeIdDesc := fun a b => Nat.decLe b.id a.id

instance : IsTotal Recipe recipeIdDesc :=
  ⟨fun a b => (Nat.le_total b.id a.id).elim Or.inl Or.inr⟩

instance : IsTrans Recipe recipeIdDesc :=
  ⟨fun _ _ _ hab hbc => le_trans hbc hab⟩

/-- `TagViewSet.get_queryset` (`tag/views.py`):
`self.queryset.filter(user=self.request.user).order_by('-name')`. -/
def TagViewSet.get_queryset (db : DB) (caller : Nat) : List NamedRow :=
  List.insertionSort nameDesc (db.tags.filter fun t => t.user == caller)

/-- `IngredientViewSet.get_queryset` (`ingredient/views.py`):
`self.queryset.filter(user=self.request.user).order_by('-name')`. -/
def IngredientViewSet.get_queryset (db : DB) (caller : Nat) : List NamedRow :=
  List.insertionSort nameDesc (db.ingredients.filter fun t => t.user == caller)

/-- Python `qs.split(',')` over the character list: split at every comma,
never dropping empty pieces (`''.split(',') == ['']`). -/
def splitOnComma : List Char → List (List Char)
  | [] => [[]]
  | c :: rest =>
    let r := splitOnComma rest
    if c = ',' then [] :: r
    else
      match r with
      | [] => [[c]]
      | h :: t => (c :: h) :: t

/-- ASCII whitespace stripped by Python `int()` around a token:
space, tab, newline, carriage return, vertical tab and form feed. -/
def isPySpace (c : Char) : Bool :=
  c = ' ' || c = '\t' || c = '\n' || c = '\r' || c.toNat = 11 || c.toNat = 12

/-- Remove leading and trailing whitespace from a token, as Python `int()`
does before parsing. -/
def stripPySpace (cs : List Char) : List Char :=
  ((cs.dropWhile isPySpace).reverse.dropWhile isPySpace).reverse

/-- Digit run of Python `int()` after the optional sign: a non-empty
sequence of base-10 digits in which single underscores may appear between
two digits (`1_0` parses, `_1`, `1_`, `1__0` do not).  The flag records
whether the previous character was a digit; the run must end on a digit. -/
def pyDigitsAux : Bool → List Char → Nat → Option Nat
  | prevDigit, [], acc => if prevDigit then some acc else none
  | prevDigit, c :: rest, acc =>
    if c.isDigit then pyDigitsAux true rest (acc * 10 + (c.toNat - 48))
    else if c == '_' && prevDigit then pyDigitsAux false rest acc
    else none

/-- Python `int()` on one token: surrounding whitespace is stripped, then
an optional single sign followed by a non-empty digit run (with underscore
separators) parses; anything else raises `ValueError`, modelled by `none`.
(Python additionally accepts non-ASCII Unicode decimal digits and strips
non-ASCII Unicode whitespace; tokens containing such characters are
outside this ASCII model, and no theorem below relies on them.) -/
def pyInt? (cs : List Char) : Option Int :=
  match stripPySpace cs with
  | '-' :: rest => (pyDigitsAux false rest 0).map fun n : Nat => -(n : Int)
  | '+' :: rest => (pyDigitsAux false rest 0).map fun n : Nat => (n : Int)
  | other => (pyDigitsAux false other 0).map fun n : Nat => (n : Int)

/-- An ASCII character that can never occur in an integer literal accepted
by `int()`: not a digit, not whitespace, not a sign, not an underscore
(e.g. any letter, a dot, a percent sign).  Its presence anywhere in a
token makes `int()` raise `ValueError`. -/
def intReject (c : Char) : Bool :=
  decide (c.toNat < 128) && !c.isDigit && !isPySpace c &&
    !(c == '+') && !(c == '-') && !(c == '_')

/-- The comprehension `[int(str_id) for str_id in ...]`: parse every
token, propagating the first `ValueError`. -/
def tokensToInts : List (List Char) → Option (List Int)
  | [] => some []
  | t :: rest =>
    match pyInt? t with
    | none => none
    | some v => (tokensToInts rest).map fun vs => v :: vs

/-- `RecipeViewSet._params_to_ints` (`recipe/views.py`):
`[int(str_id) for str_id in qs.split(',')]`.  A token that is not an
integer literal makes `int()` raise `ValueError`, modelled by `none`. -/
def params_to_ints (qs : String) : Option (List Int) :=
  tokensToInts (splitOnComma qs.toList)

/-- Python truthiness of `self.request.query_params.get('tags')`: the
branch `if tags:` runs only when the parameter is present and non-empty
(`None` and `""` are falsy). -/
def truthyParam (p : Option String) : Option String :=
  match p with
  | none => none
  | some s => if s = "" then none else some s

/-- The SQL join produced by `queryset.filter(<m2m>__id__in=ids)`: each
recipe is emitted once per associated id that lies in `ids` (so a recipe
matching several ids appears several times until `distinct()`). -/
def joinFilterBy (proj : Recipe → List Nat) : List Recipe → List Int → List Recipe
  | [], _ => []
  | r :: rest, ids =>
    (((proj r).filter fun t : Nat => decide ((t : Int) ∈ ids)).map fun _ => r)
      ++ joinFilterBy proj rest ids

/-- The query built by `RecipeViewSet.get_queryset` after the filter
parameters have been parsed: optional tag and ingredient joins, then
`.filter(user=self.request.user).order_by('-id').distinct()`. -/
def recipeFilteredList (db : DB) (caller : Nat)
    (tagIds ingredientIds : Option (List Int)) : List Recipe :=
  let q1 := match tagIds with
    | none => db.recipes
    | some ids => joinFilterBy Recipe.tags db.recipes ids
  let q2 := match ingredientIds with
    | none => q1
    | some ids => joinFilterBy Recipe.ingredients q1 ids
  (List.insertionSort recipeIdDesc (q2.filter fun r => r.user == caller)).dedup

/-- Parse one filter parameter the way `get_queryset` consumes it: skipped
when falsy, otherwise `_params_to_ints` runs and a `ValueError` escapes
(`Except.error`). -/
def parseParam (p : Option String) : Except Unit (Option (List Int)) :=
  match truthyParam p with
  | none => Except.ok none
  | some s =>
    match params_to_ints s with
    | some ids => Except.ok (some ids)
    | none => Except.error ()

/-- `RecipeViewSet.get_queryset` (`recipe/views.py`) on the raw query
parameters.  An `Except.error` is the uncaught `ValueError` from
`_params_to_ints`. -/
def RecipeViewSet.get_queryset (db : DB) (caller : Nat)
    (tagsParam ingredientsParam : Option String) : Except Unit (List Recipe) :=
  match parseParam tagsParam with
  | Except.error e => Except.error e
  | Except.ok tagIds =>
    match parseParam ingredientsParam with
    | Except.error e => Except.error e
    | Except.ok ingredientIds =>
      Except.ok (recipeFilteredList db caller tagIds ingredientIds)

/-- Outcome of the recipe list endpoint as seen by the client. -/
inductive ListResult where
  | ok : List Recipe → ListResult
  | badRequest
  | serverError
deriving DecidableEq, Repr

/-- The recipe list request.  Nothing in `RecipeViewSet` catches the
`ValueError` raised by `_params_to_ints`, and the REST framework's
exception handler only translates its own API exceptions (and `Http404` /
`PermissionDenied`) into client-error responses, so the escaping
`ValueError` surfaces as an unhandled server error, not a 400. -/
def recipeListRequest (db : DB) (caller : Nat)
    (tagsParam ingredientsParam : Option String) : ListResult :=
  match RecipeViewSet.get_queryset db caller tagsParam ingredientsParam with
  | Except.ok l => ListResult.ok l
  | Except.error _ => ListResult.serverError

/-- `get_object()` for a recipe detail route: the pk lookup runs inside
the owner-scoped queryset (`get_queryset` with no filter parameters), so a
row outside it yields `none`, which the framework turns into a 404
not-found response. -/
def recipeGetObject (db : DB) (caller : Nat) (rid : Nat) : Option Recipe :=
  (recipeFilteredList db caller none none).find? fun r => r.id == rid

/-- `get_object()` for a tag detail route, over `TagViewSet.get_queryset`;
`none` is the 404 not-found outcome. -/
def tagGetObject (db : DB) (caller : Nat) (tid : Nat) : Option NamedRow :=
  (TagViewSet.get_queryset db caller).find? fun t => t.id == tid

/-- `get_object()` for an ingredient detail route; `none` is the 404
not-found outcome. -/
def ingredientGetObject (db : DB) (caller : Nat) (iid : Nat) : Option NamedRow :=
  (IngredientViewSet.get_queryset db caller).find? fun t => t.id == iid

/-- A raw tag / ingredient request body.  Their serializers declare fields
`['id', 'name']` with `id` read-only, so validation keeps only `name`; a
supplied `user` value never reaches `validated_data` (and
`TagSerializer.update` additionally pops `'user'`). -/
structure TagRawPayload where
  name : Option String := none
  user : Option Nat := none
deriving DecidableEq, Repr

/-- Serializer validation for tags / ingredients: only `name` survives. -/
def tagValidate (p : TagRawPayload) : Option String := p.name

/-- Tag update request: 404 (`none`) unless the row is in the caller's
queryset; otherwise `TagSerializer.update` applies the validated fields
with `setattr` and saves (`UPDATE ... WHERE id = pk`). -/
def tagUpdateRequest (db : DB) (caller : Nat) (tid : Nat) (raw : TagRawPayload) :
    Option (DB × NamedRow) :=
  match tagGetObject db caller tid with
  | none => none
  | some t =>
    let t2 : NamedRow := { t with name := (tagValidate raw).getD t.name }
    some ({ db with tags := db.tags.map fun x => if x.id == t.id then t2 else x }, t2)

/-- Ingredient update request, the exact twin of `tagUpdateRequest` via
`IngredientSerializer.update`. -/
def ingredientUpdateRequest (db : DB) (caller : Nat) (iid : Nat) (raw : TagRawPayload) :
    Option (DB × NamedRow) :=
  match ingredientGetObject db caller iid with
  | none => none
  | some t =>
    let t2 : NamedRow := { t with name := (tagValidate raw).getD t.name }
    some ({ db with
      ingredients := db.ingredients.map fun x => if x.id == t.id then t2 else x }, t2)

/-- Tag delete request: 404 (`none`) outside the caller's queryset;
otherwise the row is deleted and its M2M join entries cascade away. -/
def tagDelete (db : DB) (caller : Nat) (tid : Nat) : Option DB :=
  match tagGetObject db caller tid with
  | none => none
  | some t =>
    some { db with
      tags := db.tags.filter fun x => !(x.id == t.id),
      recipes := db.recipes.map fun rc =>
        { rc with tags := rc.tags.filter fun i => !(i == t.id) } }

/-- Ingredient delete request, twin of `tagDelete`. -/
def ingredientDelete (db : DB) (caller : Nat) (iid : Nat) : Option DB :=
  match ingredientGetObject db caller iid with
  | none => none
  | some t =>
    some { db with
      ingredients := db.ingredients.filter fun x => !(x.id == t.id),
      recipes := db.recipes.map fun rc =>
        { rc with ingredients := rc.ingredients.filter fun i => !(i == t.id) } }

/-- Recipe update request (`update` / `partial_update` action): 404
(`none`) outside the caller's queryset; otherwise the serializer picked by
`get_serializer_class(action)` validates the payload and
`RecipeSerializer.update` applies it. -/
def recipeUpdateRequest (action : String) (db : DB) (caller : Nat) (rid : Nat)
    (raw : RecipeRawPayload) : Option (DB × Recipe) :=
  match recipeGetObject db caller rid with
  | none => none
  | some r =>
    some (RecipeSerializer.update db caller r
      (recipeValidate (RecipeViewSet.get_serializer_class action) raw))

/-- Recipe delete request: 404 (`none`) outside the caller's queryset;
deleting the row detaches (but never deletes) associated tags and
ingredients, whose tables are untouched. -/
def recipeDelete (db : DB) (caller : Nat) (rid : Nat) : Option DB :=
  match recipeGetObject db caller rid with
  | none => none
  | some r => some { db with recipes := db.recipes.filter fun x => !(x.id == r.id) }

/-- An uploaded file: the storage reference it would be saved under, and
whether the image field's validation (the framework's image check)
accepts it. -/
structure ImageFile where
  ref : String
  isImage : Bool
deriving DecidableEq, Repr

/-- The multipart body of an upload-image request: the `image` part,
possibly missing. -/
structure ImagePayload where
  image : Option ImageFile := none
deriving DecidableEq, Repr

/-- `serializer.is_valid()` for `RecipeImageSerializer`: the required
`image` field must be present and pass image validation. -/
def imagePayloadValid (p : ImagePayload) : Bool :=
  match p.image with
  | some f => f.isImage
  | none => false

/-- `RecipeViewSet.upload_image` (`recipe/views.py`): resolve the recipe
through the owner-scoped queryset (404 if absent), validate with the image
serializer; on success save the reference and answer 200 with the stored
reference, on failure answer 400 touching nothing.  Result is
`(status, database after, returned image reference)`. -/
def upload_image (db : DB) (caller : Nat) (rid : Nat) (p : ImagePayload) :
    Nat × DB × Option String :=
  match recipeGetObject db caller rid with
  | none => (404, db, none)
  | some r =>
    match p.image with
    | some f =>
      if f.isImage then
        (200,
         { db with recipes := db.recipes.map fun x =>
            if x.id == r.id then { x with image := some f.ref } else x },
         some f.ref)
      else (400, db, none)
    | none => (400, db, none)

/-! ## Concrete fixtures used to instantiate the theorems -/

/-- A tag owned by account 2. -/
def wTag : NamedRow := ⟨5, 2, "Dinner"⟩

/-- A tag owned by account 1. -/
def wTagA : NamedRow := ⟨6, 1, "Lunch"⟩

/-- An ingredient owned by account 2. -/
def wIng : NamedRow := ⟨7, 2, "Salt"⟩

/-- An ingredient owned by account 1. -/
def wIngA : NamedRow := ⟨8, 1, "Sugar"⟩

/-- A recipe owned by account 1. -/
def wRecipeA : Recipe := ⟨3, 1, "Pie", 20, 500, "l", "desc", none, [], []⟩

/-- A recipe owned by account 2. -/
def wRecipeB : Recipe := ⟨9, 2, "Stew", 10, 400, "", "", none, [], []⟩

/-- A two-account database: accounts 1 and 2 each own one tag, one
ingredient and one recipe. -/
def wDB : DB :=
  { tags := [wTag, wTagA], nextTagId := 20,
    ingredients := [wIng, wIngA], nextIngredientId := 21,
    recipes := [wRecipeA, wRecipeB], nextRecipeId := 22 }

/-- Validated recipe payload with nested tag and ingredient entries. -/
def vd1 : RecipeValidated :=
  { tags := some ["Dinner", "Breakfast"], ingredients := some ["Salt"] }

/-- Validated recipe payload carrying an explicit empty tag list. -/
def vdEmptyTags : RecipeValidated := { tags := some [] }

/-- Tag update body that also tries to reassign the owner. -/
def rawT1 : TagRawPayload := { name := some "Renamed", user := some 99 }

/-- Recipe update body that also tries to reassign the owner. -/
def rawR1 : RecipeRawPayload := { title := some "NewTitle", user := some 99 }

/-- Recipe update body that tries to change the description. -/
def rawR9 : RecipeRawPayload := { description := some "Injected" }

/-- An upload whose file fails image validation. -/
def pBad : ImagePayload := { image := some ⟨"x.bin", false⟩ }

/-- An upload with a valid image file. -/
def pGood : ImagePayload := { image := some ⟨"r.jpg", true⟩ }

/-- Projection: the description of the recipe returned by an update. -/
def updatedDescription (p : DB × Recipe) : String := p.2.description

/-- Projection: the owner of the recipe returned by an update. -/
def updatedUser (p : DB × Recipe) : Nat := p.2.user

/-- Projection: the title of the recipe returned by an update. -/
def updatedTitle (p : DB × Recipe) : String := p.2.title

/-- Projection: the owner of the row returned by a tag / ingredient
update. -/
def updatedRowUser (p : DB × NamedRow) : Nat := p.2.user

/-- Projection: the name of the row returned by a tag / ingredient
update. -/
def updatedRowName (p : DB × NamedRow) : String := p.2.name

/-! ## Lemmas about the get-or-create core -/

theorem countRows_append (a b : List NamedRow) (u : Nat) (n : String) :
    countRows (a ++ b) u n = countRows a u n + countRows b u n := by
  simp [countRows, List.filter_append]

theorem countRows_eq_zero {rows : List NamedRow} {u : Nat} {n : String} :
    countRows rows u n = 0 ↔ ∀ t ∈ rows, ¬(t.user = u ∧ t.name = n) := by
  simp [countRows, List.length_eq_zero, List.filter_eq_nil_iff]

theorem rowGetOrCreate_spec {rows : List NamedRow} {nextId u : Nat} {n : String}
    {rows' : List NamedRow} {nid' rid : Nat}
    (h : rowGetOrCreate rows nextId u n = (rows', nid', rid)) :
    (∀ t ∈ rows, t ∈ rows') ∧
    (∃ t ∈ rows', t.user = u ∧ t.name = n ∧ t.id = rid) ∧
    (∀ v m, countRows rows' v m =
      if v = u ∧ m = n ∧ countRows rows u n = 0 then 1 else countRows rows v m) := by
  unfold rowGetOrCreate at h
  cases hf : rows.find? (fun t => t.user == u && t.name == n) with
  | some t =>
    rw [hf] at h
    simp only [Prod.mk.injEq] at h
    obtain ⟨h1, -, h3⟩ := h
    have hmem : t ∈ rows := List.mem_of_find?_eq_some hf
    have hpred := List.find?_some hf
    simp only [Bool.and_eq_true, beq_iff_eq] at hpred
    have hcnt : countRows rows u n ≠ 0 := fun hz =>
      countRows_eq_zero.mp hz t hmem ⟨hpred.1, hpred.2⟩
    subst h1
    refine ⟨fun x hx => hx, ⟨t, hmem, hpred.1, hpred.2, h3⟩, ?_⟩
    intro v m
    rw [if_neg]
    rintro ⟨-, -, hz⟩
    exact hcnt hz
  | none =>
    rw [hf] at h
    simp only [Prod.mk.injEq] at h
    obtain ⟨h1, -, h3⟩ := h
    have hz : countRows rows u n = 0 := by
      rw [countRows_eq_zero]
      intro t ht hc
      have := List.find?_eq_none.mp hf t ht
      simp [hc.1, hc.2] at this
    subst h1
    refine ⟨fun x hx => List.mem_append_left _ hx,
      ⟨⟨nextId, u, n⟩, List.mem_append_right _ (List.mem_singleton.mpr rfl), rfl, rfl, h3⟩, ?_⟩
    intro v m
    rw [countRows_append]
    by_cases hv : v = u
    · subst hv
      by_cases hm : m = n
      · subst hm
        rw [if_pos ⟨rfl, rfl, hz⟩, hz]
        simp [countRows]
      · have : countRows [⟨nextId, v, n⟩] v m = 0 := by
          simp [countRows, hm]
          intro h'
          exact absurd h'.symm hm
        rw [this, if_neg]
        · omega
        · rintro ⟨-, hmn, -⟩
          exact hm hmn
    · have : countRows [⟨nextId, u, n⟩] v m = 0 := by
        simp [countRows]
        intro h'
        exact absurd h'.symm hv
      rw [this, if_neg]
      · omega
      · rintro ⟨hvu, -, -⟩
        exact hv hvu

theorem mem_addAssoc_self (assoc : List Nat) (i : Nat) : i ∈ addAssoc assoc i := by
  by_cases h : i ∈ assoc
  · simp [addAssoc, h]
  · simp [addAssoc, h]

theorem mem_addAssoc_of_mem {assoc : List Nat} {j : Nat} (i : Nat) (h : j ∈ assoc) :
    j ∈ addAssoc assoc i := by
  unfold addAssoc
  split
  · exact h
  · exact List.mem_append_left _ h

theorem mem_addAssoc {assoc : List Nat} {i j : Nat} (h : j ∈ addAssoc assoc i) :
    j ∈ assoc ∨ j = i := by
  unfold addAssoc at h
  split at h
  · exact Or.inl h
  · rcases List.mem_append.mp h with h' | h'
    · exact Or.inl h'
    · exact Or.inr (List.mem_singleton.mp h')

theorem rowsGetOrCreate_count (u : Nat) (names : List String) :
    ∀ rows nextId assoc v m,
      countRows (rowsGetOrCreate u names (rows, nextId, assoc)).1 v m =
        if v = u ∧ m ∈ names ∧ countRows rows u m = 0 then 1
        else countRows rows v m := by
  induction names with
  | nil =>
    intro rows nextId assoc v m
    simp [rowsGetOrCreate]
  | cons n rest ih =>
    intro rows nextId assoc v m
    rcases hp : rowGetOrCreate rows nextId u n with ⟨rows1, nid1, rid1⟩
    obtain ⟨-, -, hc⟩ := rowGetOrCreate_spec hp
    simp only [rowsGetOrCreate, hp]
    rw [ih rows1 nid1 (addAssoc assoc rid1) v m, hc u m, hc v m]
    by_cases hvu : v = u
    · subst hvu
      by_cases hmn : m = n
      · subst hmn
        by_cases h0 : countRows rows v m = 0 <;>
          simp [h0, List.mem_cons]
      · simp [hmn, List.mem_cons]
    · simp [hvu]

theorem rowsGetOrCreate_rows_mono (u : Nat) (names : List String) :
    ∀ rows nextId assoc t, t ∈ rows →
      t ∈ (rowsGetOrCreate u names (rows, nextId, assoc)).1 := by
  induction names with
  | nil =>
    intro rows nextId assoc t ht
    simpa [rowsGetOrCreate] using ht
  | cons n rest ih =>
    intro rows nextId assoc t ht
    rcases hp : rowGetOrCreate rows nextId u n with ⟨rows1, nid1, rid1⟩
    simp only [rowsGetOrCreate, hp]
    exact ih rows1 nid1 (addAssoc assoc rid1) t ((rowGetOrCreate_spec hp).1 t ht)

theorem rowsGetOrCreate_assoc_mono (u : Nat) (names : List String) :
    ∀ rows nextId assoc i, i ∈ assoc →
      i ∈ (rowsGetOrCreate u names (rows, nextId, assoc)).2.2 := by
  induction names with
  | nil =>
    intro rows nextId assoc i hi
    simpa [rowsGetOrCreate] using hi
  | cons n rest ih =>
    intro rows nextId assoc i hi
    rcases hp : rowGetOrCreate rows nextId u n with ⟨rows1, nid1, rid1⟩
    simp only [rowsGetOrCreate, hp]
    exact ih rows1 nid1 (addAssoc assoc rid1) i (mem_addAssoc_of_mem rid1 hi)

theorem rowsGetOrCreate_resolves (u : Nat) (names : List String) :
    ∀ rows nextId assoc m, m ∈ names →
      ∃ t ∈ (rowsGetOrCreate u names (rows, nextId, assoc)).1,
        t.user = u ∧ t.name = m ∧
        t.id ∈ (rowsGetOrCreate u names (rows, nextId, assoc)).2.2 := by
  induction names with
  | nil =>
    intro rows nextId assoc m hm
    exact absurd hm (List.not_mem_nil m)
  | cons n rest ih =>
    intro rows nextId assoc m hm
    rcases hp : rowGetOrCreate rows nextId u n with ⟨rows1, nid1, rid1⟩
    obtain ⟨-, ⟨t, htmem, htu, htn, hti⟩, -⟩ := rowGetOrCreate_spec hp
    simp only [rowsGetOrCreate, hp]
    rcases List.mem_cons.mp hm with hm | hm
    · subst hm
      exact ⟨t, rowsGetOrCreate_rows_mono u rest rows1 nid1 _ t htmem, htu, htn,
        hti ▸ rowsGetOrCreate_assoc_mono u rest rows1 nid1 _ rid1
          (mem_addAssoc_self assoc rid1)⟩
    · exact ih rows1 nid1 (addAssoc assoc rid1) m hm

theorem rowsGetOrCreate_assoc_origin (u : Nat) (names : List String) :
    ∀ rows nextId assoc i, i ∈ (rowsGetOrCreate u names (rows, nextId, assoc)).2.2 →
      i ∈ assoc ∨
      ∃ t ∈ (rowsGetOrCreate u names (rows, nextId, assoc)).1,
        t.id = i ∧ t.user = u ∧ t.name ∈ names := by
  induction names with
  | nil =>
    intro rows nextId assoc i hi
    exact Or.inl (by simpa [rowsGetOrCreate] using hi)
  | cons n rest ih =>
    intro rows nextId assoc i hi
    rcases hp : rowGetOrCreate rows nextId u n with ⟨rows1, nid1, rid1⟩
    obtain ⟨-, ⟨t, htmem, htu, htn, hti⟩, -⟩ := rowGetOrCreate_spec hp
    simp only [rowsGetOrCreate, hp] at hi ⊢
    rcases ih rows1 nid1 (addAssoc assoc rid1) i hi with h | ⟨t', ht'mem, ht'⟩
    · rcases mem_addAssoc h with h' | h'
      · exact Or.inl h'
      · subst h'
        exact Or.inr ⟨t, rowsGetOrCreate_rows_mono u rest rows1 nid1 _ t htmem,
          hti, htu, htn ▸ List.mem_cons_self n rest⟩
    · exact Or.inr ⟨t', ht'mem, ht'.1, ht'.2.1, List.mem_cons_of_mem n ht'.2.2⟩

/-! ## Bridge lemmas: serializer operations in terms of the shared core -/

theorem create_db_tags (db : DB) (u : Nat) (vd : RecipeValidated) :
    (RecipeSerializer.create db u vd).1.tags =
      (rowsGetOrCreate u (vd.tags.getD []) (db.tags, db.nextTagId, [])).1 := rfl

theorem create_recipe_tags (db : DB) (u : Nat) (vd : RecipeValidated) :
    (RecipeSerializer.create db u vd).2.tags =
      (rowsGetOrCreate u (vd.tags.getD []) (db.tags, db.nextTagId, [])).2.2 := rfl

theorem create_db_ingredients (db : DB) (u : Nat) (vd : RecipeValidated) :
    (RecipeSerializer.create db u vd).1.ingredients =
      (rowsGetOrCreate u (vd.ingredients.getD [])
        (db.ingredients, db.nextIngredientId, [])).1 := rfl

theorem create_recipe_ingredients (db : DB) (u : Nat) (vd : RecipeValidated) :
    (RecipeSerializer.create db u vd).2.ingredients =
      (rowsGetOrCreate u (vd.ingredients.getD [])
        (db.ingredients, db.nextIngredientId, [])).2.2 := rfl

theorem update_db_tags_some {vd : RecipeValidated} {names : List String}
    (db : DB) (u : Nat) (r : Recipe) (h : vd.tags = some names) :
    (RecipeSerializer.update db u r vd).1.tags =
      (rowsGetOrCreate u names (db.tags, db.nextTagId, [])).1 := by
  cases hvi : vd.ingredients <;>
    simp [RecipeSerializer.update, h, hvi, get_or_create_tags, get_or_create_ingredients]

theorem update_recipe_tags_some {vd : RecipeValidated} {names : List String}
    (db : DB) (u : Nat) (r : Recipe) (h : vd.tags = some names) :
    (RecipeSerializer.update db u r vd).2.tags =
      (rowsGetOrCreate u names (db.tags, db.nextTagId, [])).2.2 := by
  cases hvi : vd.ingredients <;>
    simp [RecipeSerializer.update, h, hvi, get_or_create_tags, get_or_create_ingredients]

theorem update_db_tags_none {vd : RecipeValidated}
    (db : DB) (u : Nat) (r : Recipe) (h : vd.tags = none) :
    (RecipeSerializer.update db u r vd).1.tags = db.tags := by
  cases hvi : vd.ingredients <;>
    simp [RecipeSerializer.update, h, hvi, get_or_create_tags, get_or_create_ingredients]

theorem update_recipe_tags_none {vd : RecipeValidated}
    (db : DB) (u : Nat) (r : Recipe) (h : vd.tags = none) :
    (RecipeSerializer.update db u r vd).2.tags = r.tags := by
  cases hvi : vd.ingredients <;>
    simp [RecipeSerializer.update, h, hvi, get_or_create_tags, get_or_create_ingredients]

theorem update_db_ingredients_some {vd : RecipeValidated} {names : List String}
    (db : DB) (u : Nat) (r : Recipe) (h : vd.ingredients = some names) :
    (RecipeSerializer.update db u r vd).1.ingredients =
      (rowsGetOrCreate u names (db.ingredients, db.nextIngredientId, [])).1 := by
  cases hvt : vd.tags <;>
    simp [RecipeSerializer.update, h, hvt, get_or_create_tags, get_or_create_ingredients]

theorem update_recipe_ingredients_some {vd : RecipeValidated} {names : List String}
    (db : DB) (u : Nat) (r : Recipe) (h : vd.ingredients = some names) :
    (RecipeSerializer.update db u r vd).2.ingredients =
      (rowsGetOrCreate u names (db.ingredients, db.nextIngredientId, [])).2.2 := by
  cases hvt : vd.tags <;>
    simp [RecipeSerializer.update, h, hvt, get_or_create_tags, get_or_create_ingredients]

theorem update_db_ingredients_none {vd : RecipeValidated}
    (db : DB) (u : Nat) (r : Recipe) (h : vd.ingredients = none) :
    (RecipeSerializer.update db u r vd).1.ingredients = db.ingredients := by
  cases hvt : vd.tags <;>
    simp [RecipeSerializer.update, h, hvt, get_or_create_tags, get_or_create_ingredients]

theorem update_recipe_ingredients_none {vd : RecipeValidated}
    (db : DB) (u : Nat) (r : Recipe) (h : vd.ingredients = none) :
    (RecipeSerializer.update db u r vd).2.ingredients = r.ingredients := by
  cases hvt : vd.tags <;>
    simp [RecipeSerializer.update, h, hvt, get_or_create_tags, get_or_create_ingredients]

theorem update_recipe_user (db : DB) (u : Nat) (r : Recipe) (vd : RecipeValidated) :
    (RecipeSerializer.update db u r vd).2.user = r.user := by
  cases hvt : vd.tags <;> cases hvi : vd.ingredients <;>
    simp [RecipeSerializer.update, hvt, hvi, get_or_create_tags, get_or_create_ingredients]

theorem update_recipe_title (db : DB) (u : Nat) (r : Recipe) (vd : RecipeValidated) :
    (RecipeSerializer.update db u r vd).2.title = vd.title.getD r.title := by
  cases hvt : vd.tags <;> cases hvi : vd.ingredients <;>
    simp [RecipeSerializer.update, hvt, hvi, get_or_create_tags, get_or_create_ingredients]

theorem update_recipe_time_minutes (db : DB) (u : Nat) (r : Recipe) (vd : RecipeValidated) :
    (RecipeSerializer.update db u r vd).2.time_minutes =
      vd.time_minutes.getD r.time_minutes := by
  cases hvt : vd.tags <;> cases hvi : vd.ingredients <;>
    simp [RecipeSerializer.update, hvt, hvi, get_or_create_tags, get_or_create_ingredients]

theorem update_recipe_price (db : DB) (u : Nat) (r : Recipe) (vd : RecipeValidated) :
    (RecipeSerializer.update db u r vd).2.price = vd.price.getD r.price := by
  cases hvt : vd.tags <;> cases hvi : vd.ingredients <;>
    simp [RecipeSerializer.update, hvt, hvi, get_or_create_tags, get_or_create_ingredients]

theorem update_recipe_link (db : DB) (u : Nat) (r : Recipe) (vd : RecipeValidated) :
    (RecipeSerializer.update db u r vd).2.link = vd.link.getD r.link := by
  cases hvt : vd.tags <;> cases hvi : vd.ingredients <;>
    simp [RecipeSerializer.update, hvt, hvi, get_or_create_tags, get_or_create_ingredients]

theorem update_recipe_description (db : DB) (u : Nat) (r : Recipe) (vd : RecipeValidated) :
    (RecipeSerializer.update db u r vd).2.description =
      vd.description.getD r.description := by
  cases hvt : vd.tags <;> cases hvi : vd.ingredients <;>
    simp [RecipeSerializer.update, hvt, hvi, get_or_create_tags, get_or_create_ingredients]

/-! ## Membership in the owner-scoped querysets -/

theorem mem_tag_queryset {db : DB} {caller : Nat} {t : NamedRow} :
    t ∈ TagViewSet.get_queryset db caller ↔ t ∈ db.tags ∧ t.user = caller := by
  simp [TagViewSet.get_queryset, List.mem_insertionSort, List.mem_filter]

theorem mem_ingredient_queryset {db : DB} {caller : Nat} {t : NamedRow} :
    t ∈ IngredientViewSet.get_queryset db caller ↔ t ∈ db.ingredients ∧ t.user = caller := by
  simp [IngredientViewSet.get_queryset, List.mem_insertionSort, List.mem_filter]

theorem mem_joinFilterBy {proj : Recipe → List Nat} :
    ∀ {rs : List Recipe} {ids : List Int} {r : Recipe},
      r ∈ joinFilterBy proj rs ids ↔ r ∈ rs ∧ ∃ i : Nat, i ∈ proj r ∧ (i : Int) ∈ ids := by
  intro rs
  induction rs with
  | nil => intro ids r; simp [joinFilterBy]
  | cons a rest ih =>
    intro ids r
    simp only [joinFilterBy]
    constructor
    · intro h
      rcases List.mem_append.mp h with h | h
      · rcases List.mem_map.mp h with ⟨i, hi, rfl⟩
        rcases List.mem_filter.mp hi with ⟨hmem, hdec⟩
        exact ⟨List.mem_cons_self a rest, i, hmem, of_decide_eq_true hdec⟩
      · rcases ih.mp h with ⟨hr, i, hi, hids⟩
        exact ⟨List.mem_cons_of_mem a hr, i, hi, hids⟩
    · rintro ⟨hmem, i, hi, hids⟩
      rcases List.mem_cons.mp hmem with rfl | hr
      · exact List.mem_append.mpr (Or.inl (List.mem_map.mpr
          ⟨i, List.mem_filter.mpr ⟨hi, decide_eq_true hids⟩, rfl⟩))
      · exact List.mem_append.mpr (Or.inr (ih.mpr ⟨hr, i, hi, hids⟩))

theorem mem_recipeFilteredList {db : DB} {caller : Nat}
    {oT oI : Option (List Int)} {r : Recipe} :
    r ∈ recipeFilteredList db caller oT oI ↔
      r ∈ db.recipes ∧ r.user = caller ∧
      (∀ tids, oT = some tids → ∃ i : Nat, i ∈ r.tags ∧ (i : Int) ∈ tids) ∧
      (∀ iids, oI = some iids → ∃ i : Nat, i ∈ r.ingredients ∧ (i : Int) ∈ iids) := by
  cases oT <;> cases oI <;>
    simp [recipeFilteredList, List.mem_dedup, List.mem_insertionSort, List.mem_filter,
      mem_joinFilterBy, and_assoc, and_comm, and_left_comm]

theorem tagGetObject_eq_none {db : DB} {caller tid : Nat}
    (h : ∀ t ∈ db.tags, t.id = tid → t.user ≠ caller) :
    tagGetObject db caller tid = none := by
  unfold tagGetObject
  rw [List.find?_eq_none]
  intro t ht
  have hm := mem_tag_queryset.mp ht
  simp only [beq_iff_eq]
  intro hid
  exact h t hm.1 hid hm.2

theorem ingredientGetObject_eq_none {db : DB} {caller iid : Nat}
    (h : ∀ t ∈ db.ingredients, t.id = iid → t.user ≠ caller) :
    ingredientGetObject db caller iid = none := by
  unfold ingredientGetObject
  rw [List.find?_eq_none]
  intro t ht
  have hm := mem_ingredient_queryset.mp ht
  simp only [beq_iff_eq]
  intro hid
  exact h t hm.1 hid hm.2

theorem recipeGetObject_eq_none {db : DB} {caller rid : Nat}
    (h : ∀ r ∈ db.recipes, r.id = rid → r.user ≠ caller) :
    recipeGetObject db caller rid = none := by
  unfold recipeGetObject
  rw [List.find?_eq_none]
  intro r hr
  have hm := mem_recipeFilteredList.mp hr
  simp only [beq_iff_eq]
  intro hid
  exact h r hm.1 hid hm.2.1

theorem recipeGetObject_mem {db : DB} {caller rid : Nat} {r : Recipe}
    (h : recipeGetObject db caller rid = some r) :
    r ∈ db.recipes ∧ r.user = caller ∧ r.id = rid := by
  have hm := mem_recipeFilteredList.mp (List.mem_of_find?_eq_some h)
  have hp := List.find?_some h
  simp only [beq_iff_eq] at hp
  exact ⟨hm.1, hm.2.1, hp⟩

theorem sorted_dedup {α : Type} [DecidableEq α] {r : α → α → Prop} {l : List α}
    (h : List.Sorted r l) : List.Sorted r l.dedup :=
  List.Pairwise.sublist (List.dedup_sublist l) h

/-! ## A token with a character `int()` always rejects fails to parse -/

theorem mem_dropWhile_of_not {c : Char} :
    ∀ {l : List Char}, c ∈ l → isPySpace c = false → c ∈ l.dropWhile isPySpace := by
  intro l
  induction l with
  | nil =>
    intro h _
    exact absurd h (List.not_mem_nil c)
  | cons a rest ih =>
    intro h hs
    rw [List.dropWhile_cons]
    rcases List.mem_cons.mp h with rfl | hr
    · rw [if_neg (by rw [hs]; exact Bool.false_ne_true)]
      exact List.mem_cons_self ..
    · by_cases hp : isPySpace a = true
      · rw [if_pos hp]
        exact ih hr hs
      · rw [if_neg hp]
        exact List.mem_cons_of_mem a hr

theorem mem_stripPySpace {cs : List Char} {c : Char}
    (hc : c ∈ cs) (hs : isPySpace c = false) : c ∈ stripPySpace cs := by
  unfold stripPySpace
  exact List.mem_reverse.mpr
    (mem_dropWhile_of_not (List.mem_reverse.mpr (mem_dropWhile_of_not hc hs)) hs)

theorem pyDigitsAux_eq_none {c : Char} (hd : c.isDigit = false) (hu : (c == '_') = false) :
    ∀ {cs : List Char} (b : Bool) (acc : Nat), c ∈ cs → pyDigitsAux b cs acc = none := by
  intro cs
  induction cs with
  | nil =>
    intro b acc h
    exact absurd h (List.not_mem_nil c)
  | cons a rest ih =>
    intro b acc h
    rcases List.mem_cons.mp h with rfl | hr
    · simp [pyDigitsAux, hd, hu]
    · by_cases ha : a.isDigit = true
      · simp only [pyDigitsAux, ha, if_true]
        exact ih true _ hr
      · by_cases hb : (a == '_' && b) = true
        · simp only [pyDigitsAux, ha, if_false, Bool.not_eq_true _ ▸ ha, hb, if_true]
          exact ih false _ hr
        · simp [pyDigitsAux, ha, hb]

theorem intReject_spec {c : Char} (h : intReject c = true) :
    c.isDigit = false ∧ isPySpace c = false ∧
    (c == '+') = false ∧ (c == '-') = false ∧ (c == '_') = false := by
  unfold intReject at h
  simp only [Bool.and_eq_true, Bool.not_eq_true'] at h
  exact ⟨h.1.1.1.1.2, h.1.1.1.2, h.1.1.2, h.1.2, h.2⟩

theorem pyInt_eq_none {cs : List Char} {c : Char}
    (hc : c ∈ cs) (hrej : intReject c = true) : pyInt? cs = none := by
  obtain ⟨hd, hs, hplus, hminus, hu⟩ := intReject_spec hrej
  have hstrip : c ∈ stripPySpace cs := mem_stripPySpace hc hs
  unfold pyInt?
  split
  · rename_i rest heq
    rw [heq] at hstrip
    rcases List.mem_cons.mp hstrip with hceq | hr
    · rw [hceq] at hminus
      simp at hminus
    · rw [pyDigitsAux_eq_none hd hu false 0 hr]
      rfl
  · rename_i rest heq
    rw [heq] at hstrip
    rcases List.mem_cons.mp hstrip with hceq | hr
    · rw [hceq] at hplus
      simp at hplus
    · rw [pyDigitsAux_eq_none hd hu false 0 hr]
      rfl
  · rename_i other h1 h2
    rw [pyDigitsAux_eq_none hd hu false 0 hstrip]
    rfl

theorem tokensToInts_eq_none {tokens : List (List Char)} {token : List Char}
    (ht : token ∈ tokens) (hn : pyInt? token = none) : tokensToInts tokens = none := by
  induction tokens with
  | nil => exact absurd ht (List.not_mem_nil token)
  | cons a rest ih =>
    rcases List.mem_cons.mp ht with rfl | hr
    · simp [tokensToInts, hn]
    · unfold tokensToInts
      cases ha : pyInt? a with
      | none => rfl
      | some v => rw [ih hr]; rfl

theorem params_to_ints_eq_none {s : String} {token : List Char} {c : Char}
    (ht : token ∈ splitOnComma s.toList) (hc : c ∈ token)
    (hrej : intReject c = true) : params_to_ints s = none := by
  unfold params_to_ints
  exact tokensToInts_eq_none ht (pyInt_eq_none hc hrej)

theorem get_queryset_error_of_tags {db : DB} {caller : Nat} {s : String}
    (ip : Option String) (hne : s ≠ "") (hn : params_to_ints s = none) :
    RecipeViewSet.get_queryset db caller (some s) ip = Except.error () := by
  simp [RecipeViewSet.get_queryset, parseParam, truthyParam, hne, hn]

theorem get_queryset_error_of_ingredients {db : DB} {caller : Nat} {s : String}
    (tp : Option String) (hne : s ≠ "") (hn : params_to_ints s = none) :
    RecipeViewSet.get_queryset db caller tp (some s) = Except.error () := by
  unfold RecipeViewSet.get_queryset
  cases hpt : parseParam tp with
  | error e => cases e; rfl
  | ok v => simp [parseParam, truthyParam, hne, hn]

/-! ## Claim theorems -/

/-- C4: a recipe is in the filtered list result iff it is owned by the
caller, matches at least one of the given tag IDs (when the tag filter is
given) and at least one of the given ingredient IDs (when the ingredient
filter is given) — AND across the two dimensions, OR within each ID
list — and every recipe occurs at most once in the result even when it
matches several of the given IDs. -/
theorem claim4_filter_semantics (db : DB) (caller : Nat)
    (oT oI : Option (List Int)) (r : Recipe) :
    (r ∈ recipeFilteredList db caller oT oI ↔
      r ∈ db.recipes ∧ r.user = caller ∧
      (∀ tids, oT = some tids → ∃ i : Nat, i ∈ r.tags ∧ (i : Int) ∈ tids) ∧
      (∀ iids, oI = some iids → ∃ i : Nat, i ∈ r.ingredients ∧ (i : Int) ∈ iids)) ∧
    (recipeFilteredList db caller oT oI).count r ≤ 1 := by
  refine ⟨mem_recipeFilteredList, ?_⟩
  have hnd : (recipeFilteredList db caller oT oI).Nodup := by
    unfold recipeFilteredList
    exact List.nodup_dedup _
  exact List.nodup_iff_count_le_one.mp hnd r

/-- C5 (amended): when the `tags` or the `ingredients` filter parameter
contains a token with a character `int()` can never accept (an ASCII
character that is no digit, sign, underscore or whitespace — e.g. a
letter), `_params_to_ints` raises an unhandled `ValueError`; nothing in
the view converts it into a 400 validation response, so the request
surfaces as a server error, not as a client error. -/
theorem claim5_malformed_filter_server_error (db : DB) (caller : Nat)
    (tagsParam ingredientsParam : Option String)
    (h :
      (∃ s, tagsParam = some s ∧ s ≠ "" ∧
        ∃ token ∈ splitOnComma s.toList, ∃ c ∈ token, intReject c = true) ∨
      (∃ s, ingredientsParam = some s ∧ s ≠ "" ∧
        ∃ token ∈ splitOnComma s.toList, ∃ c ∈ token, intReject c = true)) :
    recipeListRequest db caller tagsParam ingredientsParam =
      ListResult.serverError := by
  rcases h with ⟨s, hp, hne, token, ht, c, hc, hrej⟩ | ⟨s, hp, hne, token, ht, c, hc, hrej⟩
  · subst hp
    rw [recipeListRequest,
      get_queryset_error_of_tags ingredientsParam hne (params_to_ints_eq_none ht hc hrej)]
  · subst hp
    rw [recipeListRequest,
      get_queryset_error_of_ingredients tagsParam hne (params_to_ints_eq_none ht hc hrej)]

/-- C5 (counterexample to the claim as stated): listing with
`tags=abc` does not produce a 400 client-error outcome — the unhandled
`ValueError` surfaces as a server error. -/
theorem claim5_counterexample :
    recipeListRequest wDB 1 (some "abc") none = ListResult.serverError ∧
    recipeListRequest wDB 1 (some "abc") none ≠ ListResult.badRequest :=
  ⟨by decide, by decide⟩

/-- C5 witness: the amended theorem applied once with a malformed `tags`
parameter and once with a malformed `ingredients` parameter next to a
well-formed `tags` parameter; the last two conjuncts check that tokens
with surrounding whitespace or underscore separators do parse, so such
requests are not claimed to fail. -/
theorem claim5_malformed_filter_witness :
    recipeListRequest wDB 1 (some "abc") none = ListResult.serverError ∧
    recipeListRequest wDB 1 (some "1, 2") (some "5e3") = ListResult.serverError ∧
    params_to_ints "1, 2" = some [1, 2] ∧
    params_to_ints "1_0" = some [10] :=
  ⟨claim5_malformed_filter_server_error wDB 1 (some "abc") none
      (Or.inl ⟨"abc", rfl, by decide, by decide⟩),
    claim5_malformed_filter_server_error wDB 1 (some "1, 2") (some "5e3")
      (Or.inr ⟨"5e3", rfl, by decide, by decide⟩),
    by decide, by decide⟩

/-- C8: the tag and ingredient lists are ordered descending by name, and
the recipe list (with any combination of filters) is ordered descending by
identifier. -/
theorem claim8_list_ordering (db : DB) (caller : Nat) (oT oI : Option (List Int)) :
    List.Sorted nameDesc (TagViewSet.get_queryset db caller) ∧
    List.Sorted nameDesc (IngredientViewSet.get_queryset db caller) ∧
    List.Sorted recipeIdDesc (recipeFilteredList db caller oT oI) := by
  refine ⟨?_, ?_, ?_⟩
  · unfold TagViewSet.get_queryset
    exact List.sorted_insertionSort nameDesc _
  · unfold IngredientViewSet.get_queryset
    exact List.sorted_insertionSort nameDesc _
  · unfold recipeFilteredList
    exact sorted_dedup (List.sorted_insertionSort recipeIdDesc _)

/-- C10: a filter parameter that is present but empty is treated exactly
like an absent parameter — Python's `if tags:` skips the falsy empty
string, so no filtering is applied on that dimension. -/
theorem claim10_empty_param_ignored (db : DB) (caller : Nat) (p : Option String) :
    RecipeViewSet.get_queryset db caller (some "") p =
      RecipeViewSet.get_queryset db caller none p ∧
    RecipeViewSet.get_queryset db caller p (some "") =
      RecipeViewSet.get_queryset db caller p none := by
  constructor <;> simp [RecipeViewSet.get_queryset, parseParam, truthyParam]

/-- C7: an image upload on a caller-owned recipe answers 400 and leaves
the database (hence the recipe's image reference) exactly as it was when
the payload is not a valid image, and answers 200, stores the reference on
the recipe and returns it when the payload is a valid image. -/
theorem claim7_upload_image (db : DB) (caller rid : Nat) (p : ImagePayload)
    (r : Recipe) (hobj : recipeGetObject db caller rid = some r) :
    (imagePayloadValid p = false → upload_image db caller rid p = (400, db, none)) ∧
    (∀ f, p.image = some f → f.isImage = true →
      (upload_image db caller rid p).1 = 200 ∧
      (upload_image db caller rid p).2.2 = some f.ref ∧
      ∀ x ∈ (upload_image db caller rid p).2.1.recipes, x.id = r.id →
        x.image = some f.ref) := by
  constructor
  · intro hinv
    unfold upload_image
    rw [hobj]
    cases him : p.image with
    | none => rfl
    | some f =>
      unfold imagePayloadValid at hinv
      rw [him] at hinv
      have hfi : f.isImage = false := hinv
      simp [hfi]
  · intro f him hval
    unfold upload_image
    rw [hobj, him]
    simp only [hval, if_true]
    refine ⟨trivial, trivial, ?_⟩
    intro x hx hxid
    rcases List.mem_map.mp hx with ⟨y, hy, hmap⟩
    by_cases hyid : (y.id == r.id) = true
    · rw [if_pos hyid] at hmap
      rw [← hmap]
    · rw [if_neg hyid] at hmap
      subst hmap
      exact absurd (beq_iff_eq.mpr hxid) hyid

/-- C7 witness: the theorem applied to the concrete database, once with an
invalid payload and once with a valid one. -/
theorem claim7_upload_image_witness :
    (imagePayloadValid pBad = false ∧ upload_image wDB 1 3 pBad = (400, wDB, none)) ∧
    ((upload_image wDB 1 3 pGood).1 = 200 ∧
      (upload_image wDB 1 3 pGood).2.2 = some "r.jpg") := by
  have hb := claim7_upload_image wDB 1 3 pBad wRecipeA (by decide)
  have hg := (claim7_upload_image wDB 1 3 pGood wRecipeA (by decide)).2
    ⟨"r.jpg", true⟩ (by decide) (by decide)
  exact ⟨⟨by decide, hb.1 (by decide)⟩, hg.1, hg.2.1⟩

/-- C3: a tag, ingredient or recipe owned by account B is invisible to a
different account A — it is absent from A's list results, and A's
retrieve, update and delete requests on its identifier all produce the
not-found outcome (`none`, the 404 response; the pipelines have no
forbidden outcome because `get_object` never sees the row at all). -/
theorem claim3_owner_scoping (db : DB) (A B : Nat) (hAB : A ≠ B)
    (t i : NamedRow) (r : Recipe)
    (_htmem : t ∈ db.tags) (htB : t.user = B)
    (htuniq : ∀ x ∈ db.tags, x.id = t.id → x = t)
    (_himem : i ∈ db.ingredients) (hiB : i.user = B)
    (hiuniq : ∀ x ∈ db.ingredients, x.id = i.id → x = i)
    (_hrmem : r ∈ db.recipes) (hrB : r.user = B)
    (hruniq : ∀ x ∈ db.recipes, x.id = r.id → x = r)
    (rawT : TagRawPayload) (rawR : RecipeRawPayload) (action : String) :
    t ∉ TagViewSet.get_queryset db A ∧
    tagGetObject db A t.id = none ∧
    tagUpdateRequest db A t.id rawT = none ∧
    tagDelete db A t.id = none ∧
    i ∉ IngredientViewSet.get_queryset db A ∧
    ingredientGetObject db A i.id = none ∧
    ingredientUpdateRequest db A i.id rawT = none ∧
    ingredientDelete db A i.id = none ∧
    r ∉ recipeFilteredList db A none none ∧
    recipeGetObject db A r.id = none ∧
    recipeUpdateRequest action db A r.id rawR = none ∧
    recipeDelete db A r.id = none := by
  have htnone : tagGetObject db A t.id = none := by
    apply tagGetObject_eq_none
    intro x hx hid hxA
    have hxt := htuniq x hx hid
    rw [hxt] at hxA
    exact hAB (by rw [← hxA, htB])
  have hinone : ingredientGetObject db A i.id = none := by
    apply ingredientGetObject_eq_none
    intro x hx hid hxA
    have hxi := hiuniq x hx hid
    rw [hxi] at hxA
    exact hAB (by rw [← hxA, hiB])
  have hrnone : recipeGetObject db A r.id = none := by
    apply recipeGetObject_eq_none
    intro x hx hid hxA
    have hxr := hruniq x hx hid
    rw [hxr] at hxA
    exact hAB (by rw [← hxA, hrB])
  refine ⟨?_, htnone, ?_, ?_, ?_, hinone, ?_, ?_, ?_, hrnone, ?_, ?_⟩
  · intro hmem
    exact hAB (by rw [← (mem_tag_queryset.mp hmem).2, htB])
  · simp [tagUpdateRequest, htnone]
  · simp [tagDelete, htnone]
  · intro hmem
    exact hAB (by rw [← (mem_ingredient_queryset.mp hmem).2, hiB])
  · simp [ingredientUpdateRequest, hinone]
  · simp [ingredientDelete, hinone]
  · intro hmem
    exact hAB (by rw [← (mem_recipeFilteredList.mp hmem).2.1, hrB])
  · simp [recipeUpdateRequest, hrnone]
  · simp [recipeDelete, hrnone]

/-- C3 witness: account 1 cannot see or touch any of account 2's rows in
the concrete two-account database. -/
theorem claim3_owner_scoping_witness :
    wTag ∉ TagViewSet.get_queryset wDB 1 ∧
    tagGetObject wDB 1 wTag.id = none ∧
    tagUpdateRequest wDB 1 wTag.id rawT1 = none ∧
    tagDelete wDB 1 wTag.id = none ∧
    wIng ∉ IngredientViewSet.get_queryset wDB 1 ∧
    ingredientGetObject wDB 1 wIng.id = none ∧
    ingredientUpdateRequest wDB 1 wIng.id rawT1 = none ∧
    ingredientDelete wDB 1 wIng.id = none ∧
    wRecipeB ∉ recipeFilteredList wDB 1 none none ∧
    recipeGetObject wDB 1 wRecipeB.id = none ∧
    recipeUpdateRequest "update" wDB 1 wRecipeB.id rawR1 = none ∧
    recipeDelete wDB 1 wRecipeB.id = none :=
  claim3_owner_scoping wDB 1 2 (by decide) wTag wIng wRecipeB
    (by decide) (by decide) (by decide)
    (by decide) (by decide) (by decide)
    (by decide) (by decide) (by decide)
    rawT1 rawR1 "update"

/-- C6: on every tag, ingredient or recipe update (full or partial), an
owner value supplied in the payload is silently dropped — the row's owner
after the operation equals its owner before it — while the other updatable
fields present in the payload are applied. -/
theorem claim6_owner_immutable (db : DB) (caller : Nat)
    (tid iid rid : Nat) (rawT : TagRawPayload) (rawR : RecipeRawPayload)
    (action : String) (oldT oldI : NamedRow) (oldR : Recipe)
    (qT qI : DB × NamedRow) (qR : DB × Recipe)
    (hact : action = "update" ∨ action = "partial_update")
    (hT : tagGetObject db caller tid = some oldT)
    (hTreq : tagUpdateRequest db caller tid rawT = some qT)
    (hI : ingredientGetObject db caller iid = some oldI)
    (hIreq : ingredientUpdateRequest db caller iid rawT = some qI)
    (hR : recipeGetObject db caller rid = some oldR)
    (hRreq : recipeUpdateRequest action db caller rid rawR = some qR) :
    qT.2.user = oldT.user ∧ (∀ v, rawT.name = some v → qT.2.name = v) ∧
    qI.2.user = oldI.user ∧ (∀ v, rawT.name = some v → qI.2.name = v) ∧
    qR.2.user = oldR.user ∧
    (∀ v, rawR.title = some v → qR.2.title = v) ∧
    (∀ v, rawR.time_minutes = some v → qR.2.time_minutes = v) ∧
    (∀ v, rawR.price = some v → qR.2.price = v) ∧
    (∀ v, rawR.link = some v → qR.2.link = v) := by
  have hk : RecipeViewSet.get_serializer_class action = SerializerKind.recipe := by
    rcases hact with h | h <;> subst h <;> rfl
  simp only [tagUpdateRequest, hT, Option.some.injEq] at hTreq
  simp only [ingredientUpdateRequest, hI, Option.some.injEq] at hIreq
  simp only [recipeUpdateRequest, hR, hk, Option.some.injEq] at hRreq
  subst hTreq hIreq hRreq
  refine ⟨rfl, ?_, rfl, ?_, update_recipe_user .., ?_, ?_, ?_, ?_⟩
  · intro v hv
    simp [tagValidate, hv]
  · intro v hv
    simp [tagValidate, hv]
  · intro v hv
    rw [update_recipe_title]
    simp [recipeValidate, hv]
  · intro v hv
    rw [update_recipe_time_minutes]
    simp [recipeValidate, hv]
  · intro v hv
    rw [update_recipe_price]
    simp [recipeValidate, hv]
  · intro v hv
    rw [update_recipe_link]
    simp [recipeValidate, hv]

/-- C6 witness: concrete updates whose payloads carry `user := 99`; the
rows keep their owners and the supplied name / title are applied. -/
theorem claim6_owner_immutable_witness :
    (tagUpdateRequest wDB 1 6 rawT1).map updatedRowUser = some 1 ∧
    (tagUpdateRequest wDB 1 6 rawT1).map updatedRowName = some "Renamed" ∧
    (ingredientUpdateRequest wDB 1 8 rawT1).map updatedRowUser = some 1 ∧
    (recipeUpdateRequest "update" wDB 1 3 rawR1).map updatedUser = some 1 ∧
    (recipeUpdateRequest "update" wDB 1 3 rawR1).map updatedTitle = some "NewTitle" := by
  cases hT : tagUpdateRequest wDB 1 6 rawT1 with
  | none => exact absurd hT (by decide)
  | some qT =>
    cases hI : ingredientUpdateRequest wDB 1 8 rawT1 with
    | none => exact absurd hI (by decide)
    | some qI =>
      cases hR : recipeUpdateRequest "update" wDB 1 3 rawR1 with
      | none => exact absurd hR (by decide)
      | some qR =>
        have h := claim6_owner_immutable wDB 1 6 8 3 rawT1 rawR1 "update"
          wTagA wIngA wRecipeA qT qI qR (Or.inl rfl)
          (by decide) hT (by decide) hI (by decide) hR
        simp only [Option.map_some', updatedRowUser, updatedRowName,
          updatedUser, updatedTitle]
        refine ⟨?_, ?_, ?_, ?_, ?_⟩
        · rw [h.1]
          rfl
        · rw [h.2.1 "Renamed" rfl]
        · rw [h.2.2.1]
          rfl
        · rw [h.2.2.2.2.1]
          rfl
        · rw [h.2.2.2.2.2.1 "NewTitle" rfl]

/-- C9: the serializer the view selects for the update and partial_update
actions is the plain `RecipeSerializer`, whose field list omits
`description`; a description value supplied in an update payload is
therefore dropped and the recipe's description is unchanged. -/
theorem claim9_description_dropped (action : String) (db : DB) (caller rid : Nat)
    (raw : RecipeRawPayload) (old : Recipe) (q : DB × Recipe)
    (hact : action = "update" ∨ action = "partial_update")
    (hold : recipeGetObject db caller rid = some old)
    (hreq : recipeUpdateRequest action db caller rid raw = some q) :
    q.2.description = old.description := by
  have hk : RecipeViewSet.get_serializer_class action = SerializerKind.recipe := by
    rcases hact with h | h <;> subst h <;> rfl
  simp only [recipeUpdateRequest, hold, hk, Option.some.injEq] at hreq
  subst hreq
  rw [update_recipe_description]
  simp [recipeValidate]

/-- C9 witness: a partial update supplying a new description leaves the
concrete recipe's description `"desc"` untouched. -/
theorem claim9_description_dropped_witness :
    (recipeUpdateRequest "partial_update" wDB 1 3 rawR9).map updatedDescription =
      some "desc" := by
  cases hR : recipeUpdateRequest "partial_update" wDB 1 3 rawR9 with
  | none => exact absurd hR (by decide)
  | some q =>
    have h := claim9_description_dropped "partial_update" wDB 1 3 rawR9 wRecipeA q
      (Or.inr rfl) (by decide) hR
    simp [updatedDescription, h]
    rfl

theorem goc_block (rows : List NamedRow) (nextId caller : Nat) (names : List String)
    (n : String) (hn : n ∈ names) :
    (countRows rows caller n = 1 →
      countRows (rowsGetOrCreate caller names (rows, nextId, [])).1 caller n = 1) ∧
    (countRows rows caller n = 0 →
      countRows (rowsGetOrCreate caller names (rows, nextId, [])).1 caller n = 1) ∧
    (∃ t ∈ (rowsGetOrCreate caller names (rows, nextId, [])).1,
      t.user = caller ∧ t.name = n ∧
      t.id ∈ (rowsGetOrCreate caller names (rows, nextId, [])).2.2) := by
  refine ⟨?_, ?_, rowsGetOrCreate_resolves caller names rows nextId [] n hn⟩
  · intro h1
    rw [rowsGetOrCreate_count caller names rows nextId [] caller n, if_neg]
    · exact h1
    · rintro ⟨-, -, h0⟩
      omega
  · intro h0
    rw [rowsGetOrCreate_count caller names rows nextId [] caller n, if_pos ⟨rfl, hn, h0⟩]

/-- C1: whenever a recipe create or update payload embeds a `{name}` entry
for tags (resp. ingredients), the entry is resolved by exact `(owner,
name)` lookup against the caller's rows: if the (caller, name) row count
was 1 it stays 1 (the row is reused, none is created), if it was 0 a row
owned by the caller is created (count becomes 1), and in all cases a row
owned by the caller with exactly that name ends up associated with the
recipe. -/
theorem claim1_get_or_create (db : DB) (caller : Nat) (vd : RecipeValidated)
    (r : Recipe) (n : String) :
    (n ∈ vd.tags.getD [] →
      (countRows db.tags caller n = 1 →
        countRows (RecipeSerializer.create db caller vd).1.tags caller n = 1) ∧
      (countRows db.tags caller n = 0 →
        countRows (RecipeSerializer.create db caller vd).1.tags caller n = 1) ∧
      (∃ t ∈ (RecipeSerializer.create db caller vd).1.tags,
        t.user = caller ∧ t.name = n ∧
        t.id ∈ (RecipeSerializer.create db caller vd).2.tags)) ∧
    (n ∈ vd.ingredients.getD [] →
      (countRows db.ingredients caller n = 1 →
        countRows (RecipeSerializer.create db caller vd).1.ingredients caller n = 1) ∧
      (countRows db.ingredients caller n = 0 →
        countRows (RecipeSerializer.create db caller vd).1.ingredients caller n = 1) ∧
      (∃ t ∈ (RecipeSerializer.create db caller vd).1.ingredients,
        t.user = caller ∧ t.name = n ∧
        t.id ∈ (RecipeSerializer.create db caller vd).2.ingredients)) ∧
    (∀ names, vd.tags = some names → n ∈ names →
      (countRows db.tags caller n = 1 →
        countRows (RecipeSerializer.update db caller r vd).1.tags caller n = 1) ∧
      (countRows db.tags caller n = 0 →
        countRows (RecipeSerializer.update db caller r vd).1.tags caller n = 1) ∧
      (∃ t ∈ (RecipeSerializer.update db caller r vd).1.tags,
        t.user = caller ∧ t.name = n ∧
        t.id ∈ (RecipeSerializer.update db caller r vd).2.tags)) ∧
    (∀ names, vd.ingredients = some names → n ∈ names →
      (countRows db.ingredients caller n = 1 →
        countRows (RecipeSerializer.update db caller r vd).1.ingredients caller n = 1) ∧
      (countRows db.ingredients caller n = 0 →
        countRows (RecipeSerializer.update db caller r vd).1.ingredients caller n = 1) ∧
      (∃ t ∈ (RecipeSerializer.update db caller r vd).1.ingredients,
        t.user = caller ∧ t.name = n ∧
        t.id ∈ (RecipeSerializer.update db caller r vd).2.ingredients)) := by
  refine ⟨fun hn => ?_, fun hn => ?_, fun names hvt hn => ?_, fun names hvi hn => ?_⟩
  · rw [create_db_tags, create_recipe_tags]
    exact goc_block db.tags db.nextTagId caller (vd.tags.getD []) n hn
  · rw [create_db_ingredients, create_recipe_ingredients]
    exact goc_block db.ingredients db.nextIngredientId caller (vd.ingredients.getD []) n hn
  · rw [update_db_tags_some db caller r hvt, update_recipe_tags_some db caller r hvt]
    exact goc_block db.tags db.nextTagId caller names n hn
  · rw [update_db_ingredients_some db caller r hvi,
      update_recipe_ingredients_some db caller r hvi]
    exact goc_block db.ingredients db.nextIngredientId caller names n hn

/-- C1 witness: creating a recipe with nested tags `["Dinner",
"Breakfast"]` creates a `Dinner` row for account 1 (which had none) and
reuses the existing `Dinner` row of account 2 (count stays 1). -/
theorem claim1_get_or_create_witness :
    ("Dinner" ∈ vd1.tags.getD [] ∧ countRows wDB.tags 1 "Dinner" = 0 ∧
      countRows (RecipeSerializer.create wDB 1 vd1).1.tags 1 "Dinner" = 1) ∧
    (countRows wDB.tags 2 "Dinner" = 1 ∧
      countRows (RecipeSerializer.create wDB 2 vd1).1.tags 2 "Dinner" = 1) :=
  ⟨⟨by decide, by decide,
      ((claim1_get_or_create wDB 1 vd1 wRecipeA "Dinner").1 (by decide)).2.1 (by decide)⟩,
    by decide,
    ((claim1_get_or_create wDB 2 vd1 wRecipeA "Dinner").1 (by decide)).1 (by decide)⟩

/-- C2: on a recipe update, a present tags (resp. ingredients) field —
including an empty list — first clears the recipe's associations and then
re-resolves exactly the listed entries (so `[]` leaves zero associations
while the tag/ingredient rows themselves are untouched, and in general
every surviving association comes from a listed name owned by the caller,
with no table row ever deleted); an absent field leaves the associations
unchanged. -/
theorem claim2_update_associations (db : DB) (caller : Nat) (r : Recipe)
    (vd : RecipeValidated) :
    (vd.tags = none → (RecipeSerializer.update db caller r vd).2.tags = r.tags) ∧
    (vd.tags = some [] →
      (RecipeSerializer.update db caller r vd).2.tags = [] ∧
      (RecipeSerializer.update db caller r vd).1.tags = db.tags) ∧
    (∀ names, vd.tags = some names →
      (∀ t ∈ db.tags, t ∈ (RecipeSerializer.update db caller r vd).1.tags) ∧
      (∀ i ∈ (RecipeSerializer.update db caller r vd).2.tags,
        ∃ t ∈ (RecipeSerializer.update db caller r vd).1.tags,
          t.id = i ∧ t.user = caller ∧ t.name ∈ names)) ∧
    (vd.ingredients = none →
      (RecipeSerializer.update db caller r vd).2.ingredients = r.ingredients) ∧
    (vd.ingredients = some [] →
      (RecipeSerializer.update db caller r vd).2.ingredients = [] ∧
      (RecipeSerializer.update db caller r vd).1.ingredients = db.ingredients) ∧
    (∀ names, vd.ingredients = some names →
      (∀ t ∈ db.ingredients, t ∈ (RecipeSerializer.update db caller r vd).1.ingredients) ∧
      (∀ i ∈ (RecipeSerializer.update db caller r vd).2.ingredients,
        ∃ t ∈ (RecipeSerializer.update db caller r vd).1.ingredients,
          t.id = i ∧ t.user = caller ∧ t.name ∈ names)) := by
  refine ⟨fun h => update_recipe_tags_none db caller r h,
    fun h => ?_, fun names h => ?_,
    fun h => update_recipe_ingredients_none db caller r h,
    fun h => ?_, fun names h => ?_⟩
  · rw [update_recipe_tags_some db caller r h, update_db_tags_some db caller r h]
    exact ⟨rfl, rfl⟩
  · rw [update_recipe_tags_some db caller r h, update_db_tags_some db caller r h]
    constructor
    · intro t ht
      exact rowsGetOrCreate_rows_mono caller names db.tags db.nextTagId [] t ht
    · intro i hi
      rcases rowsGetOrCreate_assoc_origin caller names db.tags db.nextTagId [] i hi
        with hc | hc
      · exact absurd hc (List.not_mem_nil i)
      · exact hc
  · rw [update_recipe_ingredients_some db caller r h,
      update_db_ingredients_some db caller r h]
    exact ⟨rfl, rfl⟩
  · rw [update_recipe_ingredients_some db caller r h,
      update_db_ingredients_some db caller r h]
    constructor
    · intro t ht
      exact rowsGetOrCreate_rows_mono caller names db.ingredients db.nextIngredientId [] t ht
    · intro i hi
      rcases rowsGetOrCreate_assoc_origin caller names db.ingredients
        db.nextIngredientId [] i hi with hc | hc
      · exact absurd hc (List.not_mem_nil i)
      · exact hc

/-- C2 witness: a partial update with `tags: []` on the concrete database
clears the recipe's tag associations while the tag table is unchanged, and
a payload without the field leaves the associations alone. -/
theorem claim2_update_associations_witness :
    (RecipeSerializer.update wDB 1 wRecipeA vdEmptyTags).2.tags = [] ∧
    (RecipeSerializer.update wDB 1 wRecipeA vdEmptyTags).1.tags = wDB.tags ∧
    (RecipeSerializer.update wDB 1 wRecipeA {}).2.tags = wRecipeA.tags := by
  have h := (claim2_update_associations wDB 1 wRecipeA vdEmptyTags).2.1 rfl
  have h2 := (claim2_update_associations wDB 1 wRecipeA {}).1 rfl
  exact ⟨h.1, h.2, h2⟩
